import Mathlib

/-!
Formal model of the PoMiDAQ miniscope acquisition engine, following
src/libminiscope/miniscope.h.  Only the public header is among the
sources; the behaviour of the engine behind that interface is modelled
from the specification and the properties below are checked against
that model.
-/

namespace MScope

/-- Model of a C++ chrono clock type: the only attribute the header
inspects is the is_steady flag. -/
structure ClockType where
  is_steady : Bool
deriving DecidableEq

/-- Model of std conditional: yields the first type when the condition
holds and the second otherwise. -/
def stdConditional (cond : Bool) (t f : ClockType) : ClockType :=
  if cond then t else f

/-- From the header (miniscope.h lines 38-42): steady_hr_clock is
high_resolution_clock when that clock is steady, and steady_clock
otherwise. -/
def steady_hr_clock (highResolutionClock steadyClock : ClockType) : ClockType :=
  stdConditional highResolutionClock.is_steady highResolutionClock steadyClock

/-- From the header: the recording slice interval is given as an
unsigned whole number of minutes; its extent in milliseconds. -/
def sliceIntervalMsOfMinutes (minutes : ℕ) : ℕ := minutes * 60000

/-- Modelled from the spec: slicing is scheduled iff the configured
slice interval is positive. -/
def slicingActive (minutes : ℕ) : Bool := decide (0 < minutes)

/-- Modelled from the spec: the control-surface-visible state of the
engine session (data model section: connection, run and recording
state, cached control parameters, dropped-frame counter, last error). -/
structure Engine where
  connected : Bool
  running : Bool
  recording : Bool
  exposure : ℚ
  gain : ℚ
  excitation : ℚ
  sliceIntervalMin : ℕ
  droppedFramesCount : ℕ
  lastError : String
deriving DecidableEq

/-- The freshly constructed engine: disconnected, idle, no error. -/
def initialEngine : Engine :=
  { connected := false, running := false, recording := false,
    exposure := 0, gain := 0, excitation := 0,
    sliceIntervalMin := 0, droppedFramesCount := 0, lastError := "" }

/-- Modelled from the spec: connect opens the camera source (camOk is
whether the external camera open succeeds); idempotent no-op when
already connected; on failure sets the last error.  A successful fresh
connect clears the error and the dropped-frame counter (reconnect
reset). -/
def connect (camOk : Bool) (s : Engine) : Engine × Bool :=
  if s.connected then (s, true)
  else if camOk then
    ({ s with connected := true, lastError := "", droppedFramesCount := 0 }, true)
  else
    ({ s with lastError := "could not open camera" }, false)

/-- Modelled from the spec: disconnect stops the capture thread first
if running (stopping any recording), then releases the camera. -/
def disconnect (s : Engine) : Engine :=
  { s with recording := false, running := false, connected := false }

/-- Modelled from the spec: run starts the capture thread if connected
and not already running; returns false and sets the last error if the
connection is missing.  A new run clears the dropped-frame counter. -/
def run (s : Engine) : Engine × Bool :=
  if ¬ s.connected then ({ s with lastError := "no camera connected" }, false)
  else if s.running then (s, false)
  else ({ s with running := true, lastError := "", droppedFramesCount := 0 }, true)

/-- Modelled from the spec: stop signals the capture thread to
terminate and joins it; also stops any active recording. -/
def stop (s : Engine) : Engine :=
  { s with recording := false, running := false }

/-- Modelled from the spec: startRecording is valid only while
running; fails (returns false) if already recording or not running. -/
def startRecording (s : Engine) : Engine × Bool :=
  if s.running && !s.recording then ({ s with recording := true }, true)
  else (s, false)

/-- Modelled from the spec: stopRecording closes the current segment;
no-op when not recording. -/
def stopRecording (s : Engine) : Engine :=
  { s with recording := false }

/-- Modelled from the spec: the device-defined valid exposure range,
taken to be 0..100. -/
abbrev exposureInRange (v : ℚ) : Prop := 0 ≤ v ∧ v ≤ 100

/-- Modelled from the spec: the device-defined valid gain range, taken
to be 0..64. -/
abbrev gainInRange (v : ℚ) : Prop := 0 ≤ v ∧ v ≤ 64

/-- Modelled from the spec: the device-defined valid excitation (LED)
range, taken to be 0..100. -/
abbrev excitationInRange (v : ℚ) : Prop := 0 ≤ v ∧ v ≤ 100

/-- Modelled from the spec: setExposure validates against the device
range and caches the value regardless of connection state. -/
def setExposure (v : ℚ) (s : Engine) : Engine :=
  if exposureInRange v then { s with exposure := v } else s

/-- Modelled from the spec: setGain validates against the device range
and caches the value regardless of connection state. -/
def setGain (v : ℚ) (s : Engine) : Engine :=
  if gainInRange v then { s with gain := v } else s

/-- Modelled from the spec: setExcitation validates against the device
range and caches the value regardless of connection state. -/
def setExcitation (v : ℚ) (s : Engine) : Engine :=
  if excitationInRange v then { s with excitation := v } else s

/-- From the header: the slice interval setter takes an unsigned whole
number of minutes. -/
def setRecordingSliceInterval (minutes : ℕ) (s : Engine) : Engine :=
  { s with sliceIntervalMin := minutes }

/-- One acquisition attempt of the capture loop: either a frame
arrived within the bounded wait or the wait timed out. -/
inductive CycleInput
  | frameOk
  | timeout
deriving DecidableEq

/-- Modelled from the spec: per-cycle bookkeeping while running; an
acquisition timeout increments the dropped-frame counter and the loop
continues (transient misses are not escalated). -/
def cycleStep (inp : CycleInput) (s : Engine) : Engine :=
  if s.running then
    match inp with
    | CycleInput.timeout => { s with droppedFramesCount := s.droppedFramesCount + 1 }
    | CycleInput.frameOk => s
  else s

/-- A sequence of capture-loop cycles applied in order. -/
def runCycles (inps : List CycleInput) (s : Engine) : Engine :=
  inps.foldl (fun t i => cycleStep i t) s

/-- Control-surface operations together with capture-loop cycles. -/
inductive Op
  | connectOp (camOk : Bool)
  | disconnectOp
  | runOp
  | stopOp
  | startRecordingOp
  | stopRecordingOp
  | setExposureOp (v : ℚ)
  | setGainOp (v : ℚ)
  | setExcitationOp (v : ℚ)
  | setSliceIntervalOp (minutes : ℕ)
  | cycleOp (inp : CycleInput)

/-- Effect of one operation on the engine state (returned status codes
are dropped). -/
def applyOp (o : Op) (s : Engine) : Engine :=
  match o with
  | Op.connectOp camOk => (connect camOk s).1
  | Op.disconnectOp => disconnect s
  | Op.runOp => (run s).1
  | Op.stopOp => stop s
  | Op.startRecordingOp => (startRecording s).1
  | Op.stopRecordingOp => stopRecording s
  | Op.setExposureOp v => setExposure v s
  | Op.setGainOp v => setGain v s
  | Op.setExcitationOp v => setExcitation v s
  | Op.setSliceIntervalOp n => setRecordingSliceInterval n s
  | Op.cycleOp inp => cycleStep inp s

/-- Engine states reachable from the freshly constructed engine by
control-surface operations and capture cycles. -/
inductive Reachable : Engine → Prop
  | init : Reachable initialEngine
  | step {s : Engine} (o : Op) : Reachable s → Reachable (applyOp o s)

/-- The session state invariant: recording implies running and running
implies connected. -/
def EngineInv (s : Engine) : Prop :=
  (s.recording = true → s.running = true) ∧ (s.running = true → s.connected = true)

/-- A frame: pixel values indexed by pixel position, modelled over the
rationals. -/
def Frame : Type := ℕ → ℚ

/-- From the header: the enumeration of background-difference
methods. -/
inductive BackgroundDiffMethod
  | None
  | Subtraction
  | Division
deriving DecidableEq

/-- Modelled from the spec: background model update each cycle with
the configured accumulation factor. -/
def bgUpdate (alpha : ℚ) (frame bg : Frame) : Frame :=
  fun p => alpha * frame p + (1 - alpha) * bg p

/-- Clamp a pixel value into the display range 0..255. -/
def clampPix (x : ℚ) : ℚ := min 255 (max 0 x)

/-- Modelled from the spec: small constant guarding the divisor in
Division mode. -/
def divEpsilon : ℚ := 1 / 1000

/-- Modelled from the spec: the frame processor's background-difference
step (None passes through, Subtraction clamps the difference, Division
divides by the guarded background and scales to the display range). -/
def processFrame (m : BackgroundDiffMethod) (frame bg : Frame) : Frame :=
  match m with
  | BackgroundDiffMethod.None => frame
  | BackgroundDiffMethod.Subtraction => fun p => clampPix (frame p - bg p)
  | BackgroundDiffMethod.Division => fun p => clampPix (255 * (frame p / max (bg p) divEpsilon))

/-- Modelled from the spec: one capture cycle of the frame processor.
The background model is updated first, regardless of the selected
method, then the display frame is produced from the updated model. -/
def captureCycle (m : BackgroundDiffMethod) (alpha : ℚ) (frame bg : Frame) : Frame × Frame :=
  (processFrame m frame (bgUpdate alpha frame bg), bgUpdate alpha frame bg)

/-- Background model after k cycles on a constant input frame c. -/
def bgAfter (m : BackgroundDiffMethod) (alpha : ℚ) (c bg0 : Frame) : ℕ → Frame
  | 0 => bg0
  | k + 1 => (captureCycle m alpha c (bgAfter m alpha c bg0 k)).2

/-- Display frame produced by cycle k+1 on a constant input frame c. -/
def displayAfter (m : BackgroundDiffMethod) (alpha : ℚ) (c bg0 : Frame) (k : ℕ) : Frame :=
  (captureCycle m alpha c (bgAfter m alpha c bg0 k)).1

/-- Modelled from the spec: calibrated timestamp of the monotonic
instant mono, relative to the first-frame monotonic instant firstMono;
in unix mode the anchor ref (the wall-clock reading taken at the first
frame) is added, so later frames never trigger a fresh wall-clock
read. -/
def calibTimestamp (useUnix : Bool) (ref firstMono mono : ℤ) : ℤ :=
  if useUnix then ref + (mono - firstMono) else mono - firstMono

/-- Modelled from the spec: the timestamps of a whole run.  The
monotonic instants of the acquired frames are given in order; wall
gives the wall-clock reading as a function of the monotonic instant at
which it would be read, and it is consulted exactly once, at the first
acquired frame. -/
def runTimestamps (useUnix : Bool) (wall : ℤ → ℤ) : List ℤ → List ℤ
  | [] => []
  | m0 :: rest => (m0 :: rest).map (calibTimestamp useUnix (wall m0) m0)

/-- One output file segment of the recorder. -/
structure Segment where
  filename : String
  frames : List ℤ
  closed : Bool
deriving DecidableEq

/-- Modelled from the spec: deterministic segment filename derived from
the base filename and the segment index. -/
def sliceFilename (base : String) (idx : ℕ) : String :=
  if idx = 0 then base else base ++ "_" ++ toString idx

/-- Modelled from the spec: recorder state — segments in creation
order, the index of the next segment, the next slice boundary, and the
recording flag. -/
structure Recorder where
  baseName : String
  sliceMs : ℤ
  segments : List Segment
  nextIndex : ℕ
  nextBoundary : Option ℤ
  recording : Bool
deriving DecidableEq

/-- Mark every open segment closed. -/
def closeSegments (segs : List Segment) : List Segment :=
  segs.map (fun sg => { sg with closed := true })

/-- Append a frame timestamp to the last (current) segment. -/
def appendToLast (segs : List Segment) (t : ℤ) : List Segment :=
  match segs with
  | [] => []
  | [sg] => [{ sg with frames := sg.frames ++ [t] }]
  | sg :: rest => sg :: appendToLast rest t

/-- Modelled from the spec: startRecording opens the first segment
and, when a positive slice interval is configured, schedules the first
slice boundary. -/
def rStartRecording (base : String) (sliceMs : ℤ) (t0 : ℤ) : Recorder :=
  { baseName := base, sliceMs := sliceMs,
    segments := [{ filename := sliceFilename base 0, frames := [], closed := false }],
    nextIndex := 1,
    nextBoundary := if 0 < sliceMs then some (t0 + sliceMs) else none,
    recording := true }

/-- Modelled from the spec: while recording, a frame whose timestamp
has reached the slice boundary closes the current segment and opens
the next indexed one transparently; the frame itself goes into the new
segment, so no frame is lost at the boundary. -/
def writeFrame (r : Recorder) (t : ℤ) : Recorder :=
  if r.recording then
    match r.nextBoundary with
    | some b =>
        if b ≤ t then
          { r with
            segments := closeSegments r.segments ++
              [{ filename := sliceFilename r.baseName r.nextIndex, frames := [t], closed := false }],
            nextIndex := r.nextIndex + 1,
            nextBoundary := some (b + r.sliceMs) }
        else { r with segments := appendToLast r.segments t }
    | none => { r with segments := appendToLast r.segments t }
  else r

/-- Modelled from the spec: stopRecording deterministically closes the
open segment. -/
def rStopRecording (r : Recorder) : Recorder :=
  { r with recording := false, segments := closeSegments r.segments, nextBoundary := none }

/-- Feed a list of frame timestamps to the recorder in order. -/
def feedFrames (r : Recorder) (ts : List ℤ) : Recorder := ts.foldl writeFrame r

/-- All frames held across the recorder's segments, in order. -/
def allFrames (r : Recorder) : List ℤ := (r.segments.map Segment.frames).flatten

/-- Number of segments currently open. -/
def openSegmentCount (r : Recorder) : ℕ :=
  r.segments.countP (fun sg => !sg.closed)

/-- All segments but the last (current) one are closed. -/
def OnlyLastOpen (segs : List Segment) : Prop :=
  ∀ b ∈ (segs.map Segment.closed).dropLast, b = true

/-- Combined recorder invariant: the base name is stable, recording is
active, at least one segment exists, filenames enumerate the segment
indices deterministically, and only the last segment can be open. -/
def RecInv (base : String) (r : Recorder) : Prop :=
  r.baseName = base ∧ r.recording = true ∧ r.segments ≠ [] ∧
    r.segments.map Segment.filename = (List.range r.nextIndex).map (sliceFilename base) ∧
    OnlyLastOpen r.segments

/-- Modelled from the spec: the engine-level stop joins the capture
thread and also closes any open recording segment. -/
def stopWithRecorder (s : Engine) (r : Recorder) : Engine × Recorder :=
  (stop s, rStopRecording r)

/-- Modelled from the spec: disconnect stops capture first and also
closes any open recording segment. -/
def disconnectWithRecorder (s : Engine) (r : Recorder) : Engine × Recorder :=
  (disconnect s, rStopRecording r)

/-- Observable events at the callback boundary, plus the return of a
blocking stop call. -/
inductive CEvent
  | rawFrame
  | dispFrame
  | message
  | stopReturn
deriving DecidableEq

/-- Thread-level state: whether the capture thread is alive and
whether stop has been requested. -/
structure Sys where
  threadAlive : Bool
  stopRequested : Bool
deriving DecidableEq

/-- Modelled from the spec concurrency model: interleaved small steps
of the capture thread and a controlling thread.  Callbacks are invoked
only by the live capture thread; a stop request takes effect at a
frame-cycle boundary (the in-flight cycle may still complete and emit
its callbacks); the return of the blocking stop call (the join) is
possible only once the capture thread has exited. -/
inductive SysStep : Sys → Option CEvent → Sys → Prop
  | emitRaw (s : Sys) : s.threadAlive = true → SysStep s (some CEvent.rawFrame) s
  | emitDisp (s : Sys) : s.threadAlive = true → SysStep s (some CEvent.dispFrame) s
  | emitMsg (s : Sys) : s.threadAlive = true → SysStep s (some CEvent.message) s
  | threadExit (s : Sys) : s.threadAlive = true → s.stopRequested = true →
      SysStep s none { s with threadAlive := false }
  | stopRequest (s : Sys) : SysStep s none { s with stopRequested := true }
  | stopJoinReturn (s : Sys) : s.threadAlive = false → SysStep s (some CEvent.stopReturn) s

/-- Executions of the two-thread system, collecting emitted events. -/
inductive SysTrace : Sys → List CEvent → Sys → Prop
  | nil (s : Sys) : SysTrace s [] s
  | silent {s₁ s₂ s₃ : Sys} {tr : List CEvent} :
      SysStep s₁ none s₂ → SysTrace s₂ tr s₃ → SysTrace s₁ tr s₃
  | emit {s₁ s₂ s₃ : Sys} {e : CEvent} {tr : List CEvent} :
      SysStep s₁ (some e) s₂ → SysTrace s₂ tr s₃ → SysTrace s₁ (e :: tr) s₃

theorem engineInv_initial : EngineInv initialEngine := by
  constructor <;> simp [initialEngine]

theorem engineInv_applyOp (o : Op) (s : Engine) (h : EngineInv s) :
    EngineInv (applyOp o s) := by
  obtain ⟨hrec, hrun⟩ := h
  cases o with
  | connectOp camOk =>
      simp only [applyOp, connect]
      split_ifs <;> exact ⟨by simp_all, by simp_all⟩
  | disconnectOp => exact ⟨by simp [applyOp, disconnect], by simp [applyOp, disconnect]⟩
  | runOp =>
      simp only [applyOp, run]
      split_ifs <;> exact ⟨by simp_all, by simp_all⟩
  | stopOp => exact ⟨by simp [applyOp, stop], by simp [applyOp, stop]⟩
  | startRecordingOp =>
      simp only [applyOp, startRecording]
      split_ifs with hcond
      · simp only [Bool.and_eq_true, Bool.not_eq_true'] at hcond
        exact ⟨fun _ => by simp [hcond.1], fun _ => hrun hcond.1⟩
      · exact ⟨hrec, hrun⟩
  | stopRecordingOp =>
      exact ⟨by simp [applyOp, stopRecording], by simp_all [applyOp, stopRecording]⟩
  | setExposureOp v =>
      simp only [applyOp, setExposure]
      split_ifs <;> exact ⟨by simp_all, by simp_all⟩
  | setGainOp v =>
      simp only [applyOp, setGain]
      split_ifs <;> exact ⟨by simp_all, by simp_all⟩
  | setExcitationOp v =>
      simp only [applyOp, setExcitation]
      split_ifs <;> exact ⟨by simp_all, by simp_all⟩
  | setSliceIntervalOp n =>
      exact ⟨by simp_all [applyOp, setRecordingSliceInterval],
             by simp_all [applyOp, setRecordingSliceInterval]⟩
  | cycleOp inp =>
      simp only [applyOp, cycleStep]
      split_ifs with hr
      · cases inp <;> exact ⟨by simp_all, by simp_all⟩
      · exact ⟨hrec, hrun⟩

theorem engineInv_reachable (s : Engine) (h : Reachable s) : EngineInv s := by
  induction h with
  | init => exact engineInv_initial
  | step o _ ih => exact engineInv_applyOp o _ ih

theorem closeSegments_map_filename (segs : List Segment) :
    (closeSegments segs).map Segment.filename = segs.map Segment.filename := by
  induction segs with
  | nil => rfl
  | cons sg rest ih =>
      simp only [closeSegments, List.map_cons] at ih ⊢
      rw [ih]

theorem closeSegments_map_frames (segs : List Segment) :
    (closeSegments segs).map Segment.frames = segs.map Segment.frames := by
  induction segs with
  | nil => rfl
  | cons sg rest ih =>
      simp only [closeSegments, List.map_cons] at ih ⊢
      rw [ih]

theorem closeSegments_closed (segs : List Segment) :
    ∀ sg ∈ closeSegments segs, sg.closed = true := by
  intro sg h
  simp only [closeSegments, List.mem_map] at h
  obtain ⟨sg0, _, rfl⟩ := h
  rfl

theorem appendToLast_map_filename (segs : List Segment) (t : ℤ) :
    (appendToLast segs t).map Segment.filename = segs.map Segment.filename := by
  induction segs with
  | nil => rfl
  | cons sg rest ih =>
      cases rest with
      | nil => rfl
      | cons sg2 rest2 =>
          simp only [appendToLast, List.map_cons] at ih ⊢
          rw [ih]

theorem appendToLast_map_closed (segs : List Segment) (t : ℤ) :
    (appendToLast segs t).map Segment.closed = segs.map Segment.closed := by
  induction segs with
  | nil => rfl
  | cons sg rest ih =>
      cases rest with
      | nil => rfl
      | cons sg2 rest2 =>
          simp only [appendToLast, List.map_cons] at ih ⊢
          rw [ih]

theorem appendToLast_flatten (segs : List Segment) (t : ℤ) (h : segs ≠ []) :
    ((appendToLast segs t).map Segment.frames).flatten
      = (segs.map Segment.frames).flatten ++ [t] := by
  induction segs with
  | nil => exact absurd rfl h
  | cons sg rest ih =>
      cases rest with
      | nil => simp [appendToLast]
      | cons sg2 rest2 =>
          simp only [appendToLast, List.map_cons, List.flatten_cons]
          rw [ih (by simp)]
          simp [List.append_assoc]

theorem writeFrame_recording (r : Recorder) (t : ℤ) :
    (writeFrame r t).recording = r.recording := by
  unfold writeFrame
  split
  · split
    · split <;> rfl
    · rfl
  · rfl

theorem writeFrame_nextIndex_le (r : Recorder) (t : ℤ) :
    r.nextIndex ≤ (writeFrame r t).nextIndex := by
  unfold writeFrame
  split
  · split
    · split
      · exact Nat.le_succ _
      · exact Nat.le_refl _
    · exact Nat.le_refl _
  · exact Nat.le_refl _

theorem feedFrames_nextIndex_le (ts : List ℤ) (r : Recorder) :
    r.nextIndex ≤ (feedFrames r ts).nextIndex := by
  induction ts generalizing r with
  | nil => exact Nat.le_refl _
  | cons t rest ih =>
      exact Nat.le_trans (writeFrame_nextIndex_le r t) (ih (writeFrame r t))

theorem recInv_appendToLast {base : String} {r : Recorder} (t : ℤ) (h : RecInv base r) :
    RecInv base { r with segments := appendToLast r.segments t } := by
  obtain ⟨hb, hr, hne, hfn, hopen⟩ := h
  refine ⟨hb, hr, ?_, ?_, ?_⟩
  · intro hnil
    have hlen : (appendToLast r.segments t).map Segment.filename
        = r.segments.map Segment.filename := appendToLast_map_filename _ _
    rw [show ({ r with segments := appendToLast r.segments t } : Recorder).segments
        = appendToLast r.segments t from rfl] at hnil
    rw [hnil] at hlen
    exact hne (List.map_eq_nil_iff.mp hlen.symm)
  · show (appendToLast r.segments t).map Segment.filename = _
    rw [appendToLast_map_filename, hfn]
  · show OnlyLastOpen (appendToLast r.segments t)
    unfold OnlyLastOpen at hopen ⊢
    rw [appendToLast_map_closed]
    exact hopen

theorem recInv_writeFrame {base : String} {r : Recorder} (t : ℤ) (h : RecInv base r) :
    RecInv base (writeFrame r t) := by
  obtain ⟨hb, hr, hne, hfn, hopen⟩ := h
  cases hB : r.nextBoundary with
  | none =>
      have hw : writeFrame r t = { r with segments := appendToLast r.segments t } := by
        simp [writeFrame, hr, hB]
      rw [hw]
      exact recInv_appendToLast t ⟨hb, hr, hne, hfn, hopen⟩
  | some b =>
      by_cases hbt : b ≤ t
      · have hw : writeFrame r t = { r with
            segments := closeSegments r.segments ++
              [{ filename := sliceFilename r.baseName r.nextIndex, frames := [t], closed := false }],
            nextIndex := r.nextIndex + 1,
            nextBoundary := some (b + r.sliceMs) } := by
          simp [writeFrame, hr, hB, hbt]
        rw [hw]
        refine ⟨hb, hr, by simp, ?_, ?_⟩
        · show (closeSegments r.segments ++ _).map Segment.filename = _
          rw [List.map_append, closeSegments_map_filename, hfn, hb, List.range_succ,
            List.map_append]
          rfl
        · show OnlyLastOpen (closeSegments r.segments ++ _)
          unfold OnlyLastOpen
          intro bb hbb
          rw [List.map_append] at hbb
          simp only [List.map_cons, List.map_nil] at hbb
          rw [List.dropLast_concat] at hbb
          simp only [List.mem_map] at hbb
          obtain ⟨sg, hsg, hval⟩ := hbb
          rw [← hval]
          exact closeSegments_closed _ sg hsg
      · have hw : writeFrame r t = { r with segments := appendToLast r.segments t } := by
          simp [writeFrame, hr, hB, hbt]
        rw [hw]
        exact recInv_appendToLast t ⟨hb, hr, hne, hfn, hopen⟩

theorem recInv_feedFrames {base : String} {r : Recorder} (ts : List ℤ) (h : RecInv base r) :
    RecInv base (feedFrames r ts) := by
  induction ts generalizing r with
  | nil => exact h
  | cons t rest ih => exact ih (recInv_writeFrame t h)

theorem recInv_start (base : String) (T t0 : ℤ) : RecInv base (rStartRecording base T t0) := by
  refine ⟨rfl, rfl, by simp [rStartRecording], ?_, ?_⟩
  · simp [rStartRecording, List.range_succ]
  · simp [rStartRecording, OnlyLastOpen]

theorem allFrames_writeFrame {base : String} {r : Recorder} (t : ℤ) (h : RecInv base r) :
    allFrames (writeFrame r t) = allFrames r ++ [t] := by
  obtain ⟨hb, hr, hne, hfn, hopen⟩ := h
  cases hB : r.nextBoundary with
  | none =>
      have hw : writeFrame r t = { r with segments := appendToLast r.segments t } := by
        simp [writeFrame, hr, hB]
      rw [hw]
      show ((appendToLast r.segments t).map Segment.frames).flatten = _
      rw [appendToLast_flatten _ _ hne]
      rfl
  | some b =>
      by_cases hbt : b ≤ t
      · have hw : writeFrame r t = { r with
            segments := closeSegments r.segments ++
              [{ filename := sliceFilename r.baseName r.nextIndex, frames := [t], closed := false }],
            nextIndex := r.nextIndex + 1,
            nextBoundary := some (b + r.sliceMs) } := by
          simp [writeFrame, hr, hB, hbt]
        rw [hw]
        show ((closeSegments r.segments ++ _).map Segment.frames).flatten = _
        rw [List.map_append, List.flatten_append, closeSegments_map_frames]
        rfl
      · have hw : writeFrame r t = { r with segments := appendToLast r.segments t } := by
          simp [writeFrame, hr, hB, hbt]
        rw [hw]
        show ((appendToLast r.segments t).map Segment.frames).flatten = _
        rw [appendToLast_flatten _ _ hne]
        rfl

theorem allFrames_feedFrames {base : String} {r : Recorder} (ts : List ℤ) (h : RecInv base r) :
    allFrames (feedFrames r ts) = allFrames r ++ ts := by
  induction ts generalizing r with
  | nil => simp [feedFrames, allFrames]
  | cons t rest ih =>
      have step : feedFrames r (t :: rest) = feedFrames (writeFrame r t) rest := rfl
      rw [step, ih (recInv_writeFrame t h), allFrames_writeFrame t h, List.append_assoc]
      rfl

theorem countP_le_one_of_dropLast (bs : List Bool) (h : ∀ b ∈ bs.dropLast, b = true) :
    bs.countP (fun b => !b) ≤ 1 := by
  induction bs with
  | nil => simp
  | cons b rest ih =>
      cases rest with
      | nil => cases b <;> simp [List.countP_cons]
      | cons b2 rest2 =>
          have hb : b = true := h b (by simp)
          have ih2 := ih (fun x hx => h x (by simp; right; exact hx))
          simp only [List.countP_cons, hb]
          simpa [List.countP_cons] using ih2

theorem openSegmentCount_le_one {base : String} {r : Recorder} (h : RecInv base r) :
    openSegmentCount r ≤ 1 := by
  obtain ⟨_, _, _, _, hopen⟩ := h
  unfold openSegmentCount
  have hmap : r.segments.countP (fun sg => !sg.closed)
      = (r.segments.map Segment.closed).countP (fun b => !b) := by
    rw [List.countP_map]
    rfl
  rw [hmap]
  exact countP_le_one_of_dropLast _ hopen

theorem segments_length_eq_nextIndex {base : String} {r : Recorder} (h : RecInv base r) :
    r.segments.length = r.nextIndex := by
  have hlen := congrArg List.length h.2.2.2.1
  simpa using hlen

theorem feedFrames_slices {B : ℤ} :
    ∀ (ts : List ℤ) (r : Recorder), r.recording = true → r.nextBoundary = some B →
      1 ≤ r.nextIndex → (∃ t ∈ ts, B ≤ t) → 2 ≤ (feedFrames r ts).nextIndex := by
  intro ts
  induction ts with
  | nil =>
      intro r _ _ _ hex
      simp at hex
  | cons t rest ih =>
      intro r hr hB hn hex
      have step : feedFrames r (t :: rest) = feedFrames (writeFrame r t) rest := rfl
      rw [step]
      by_cases hbt : B ≤ t
      · have h1 : 2 ≤ (writeFrame r t).nextIndex := by
          have hw : (writeFrame r t).nextIndex = r.nextIndex + 1 := by
            simp [writeFrame, hr, hB, hbt]
          omega
        exact Nat.le_trans h1 (feedFrames_nextIndex_le rest _)
      · have hw : writeFrame r t = { r with segments := appendToLast r.segments t } := by
          simp [writeFrame, hr, hB, hbt]
        apply ih (writeFrame r t)
        · rw [hw]; exact hr
        · rw [hw]; exact hB
        · rw [hw]; exact hn
        · obtain ⟨x, hx, hBx⟩ := hex
          rcases List.mem_cons.mp hx with hx0 | hx1
          · exact absurd (hx0 ▸ hBx) hbt
          · exact ⟨x, hx1, hBx⟩

theorem rStopRecording_closes (r : Recorder) :
    openSegmentCount (rStopRecording r) = 0 ∧
      ∀ sg ∈ (rStopRecording r).segments, sg.closed = true := by
  constructor
  · unfold openSegmentCount rStopRecording
    show (closeSegments r.segments).countP _ = 0
    rw [List.countP_eq_zero]
    intro sg hsg
    simp [closeSegments_closed _ sg hsg]
  · intro sg hsg
    exact closeSegments_closed _ sg hsg

theorem sysStep_dead {s₁ s₂ : Sys} {e : Option CEvent} (h : SysStep s₁ e s₂)
    (hdead : s₁.threadAlive = false) :
    s₂.threadAlive = false ∧ ∀ ev, e = some ev → ev = CEvent.stopReturn := by
  cases h <;> simp_all

theorem sysTrace_dead :
    ∀ {s₁ s₃ : Sys} {tr : List CEvent}, SysTrace s₁ tr s₃ → s₁.threadAlive = false →
      ∀ e ∈ tr, e = CEvent.stopReturn := by
  intro s₁ s₃ tr h
  induction h with
  | nil => intro _ e he; simp at he
  | silent hstep _ ih =>
      intro hdead
      exact ih (sysStep_dead hstep hdead).1
  | emit hstep _ ih =>
      intro hdead e he
      obtain ⟨h2, hev⟩ := sysStep_dead hstep hdead
      rcases List.mem_cons.mp he with h0 | h1
      · exact h0 ▸ hev _ rfl
      · exact ih h2 e h1

theorem sysTrace_no_callback_after :
    ∀ {s₁ s₃ : Sys} {tr : List CEvent}, SysTrace s₁ tr s₃ →
      ∀ pre post, tr = pre ++ CEvent.stopReturn :: post →
        CEvent.rawFrame ∉ post ∧ CEvent.dispFrame ∉ post ∧ CEvent.message ∉ post := by
  intro s₁ s₃ tr h
  induction h with
  | nil =>
      intro pre post heq
      exact absurd heq (by cases pre <;> simp)
  | silent _ _ ih => exact ih
  | emit hstep htr ih =>
      intro pre post heq
      cases pre with
      | nil =>
          simp only [List.nil_append] at heq
          injection heq with h1 h2
          subst h1
          subst h2
          cases hstep with
          | stopJoinReturn hdead =>
              have hall := sysTrace_dead htr hdead
              refine ⟨?_, ?_, ?_⟩ <;>
                · intro hmem
                  have := hall _ hmem
                  simp at this
      | cons p pre2 =>
          simp only [List.cons_append] at heq
          injection heq with h1 h2
          exact ih pre2 post h2

theorem cycleStep_dropped_le (i : CycleInput) (s : Engine) :
    s.droppedFramesCount ≤ (cycleStep i s).droppedFramesCount := by
  unfold cycleStep
  split
  · cases i
    · exact Nat.le_refl _
    · exact Nat.le_succ _
  · exact Nat.le_refl _

theorem runCycles_dropped_le (inps : List CycleInput) (s : Engine) :
    s.droppedFramesCount ≤ (runCycles inps s).droppedFramesCount := by
  induction inps generalizing s with
  | nil => exact Nat.le_refl _
  | cons i rest ih =>
      exact Nat.le_trans (cycleStep_dropped_le i s) (ih (cycleStep i s))

/-- C1: every engine state reachable by control-surface operations and
capture cycles satisfies the state invariant — recording implies
running and running implies connected — and applying any further
operation to a reachable state again yields a state satisfying it. -/
theorem c1_state_machine_invariant (s : Engine) (h : Reachable s) :
    EngineInv s ∧ ∀ o : Op, EngineInv (applyOp o s) :=
  ⟨engineInv_reachable s h, fun o => engineInv_applyOp o s (engineInv_reachable s h)⟩

theorem c1_state_machine_invariant_witness :
    EngineInv (applyOp Op.runOp (applyOp (Op.connectOp true) initialEngine)) ∧
      ∀ o : Op, EngineInv (applyOp o (applyOp Op.runOp (applyOp (Op.connectOp true) initialEngine))) :=
  c1_state_machine_invariant _
    (Reachable.step Op.runOp (Reachable.step (Op.connectOp true) Reachable.init))

/-- C3: calling run in a reachable state with no completed connection
returns false, sets a non-empty last error, and leaves running false
(no capture thread is started). -/
theorem c3_run_without_connect (s : Engine) (hr : Reachable s) (hc : s.connected = false) :
    (run s).2 = false ∧ (run s).1.lastError ≠ "" ∧ (run s).1.running = false := by
  have hinv := engineInv_reachable s hr
  have hrun : s.running = false := by
    cases hR : s.running
    · rfl
    · exact absurd (hinv.2 hR) (by simp [hc])
  refine ⟨?_, ?_, ?_⟩ <;> simp [run, hc, hrun]

theorem c3_run_without_connect_witness :
    (run initialEngine).2 = false ∧ (run initialEngine).1.lastError ≠ "" ∧
      (run initialEngine).1.running = false :=
  c3_run_without_connect initialEngine Reachable.init rfl

/-- C4: in every execution of the two-thread system, once the blocking
stop call has returned (which requires the capture thread to have
exited, i.e. join semantics), no raw-frame, display-frame or message
callback event occurs afterwards; moreover stop and disconnect leave
the engine not running and not recording. -/
theorem c4_stop_join_no_late_callbacks (s₁ s₃ : Sys) (tr : List CEvent)
    (h : SysTrace s₁ tr s₃) :
    (∀ pre post : List CEvent, tr = pre ++ CEvent.stopReturn :: post →
        CEvent.rawFrame ∉ post ∧ CEvent.dispFrame ∉ post ∧ CEvent.message ∉ post) ∧
      (∀ e : Engine, (stop e).running = false ∧ (stop e).recording = false ∧
        (disconnect e).running = false ∧ (disconnect e).recording = false) :=
  ⟨sysTrace_no_callback_after h,
   fun _ => ⟨rfl, rfl, rfl, rfl⟩⟩

theorem c4_stop_join_no_late_callbacks_witness :
    (CEvent.rawFrame ∉ ([] : List CEvent) ∧ CEvent.dispFrame ∉ ([] : List CEvent) ∧
        CEvent.message ∉ ([] : List CEvent)) ∧
      (stop initialEngine).running = false :=
  ⟨(c4_stop_join_no_late_callbacks ⟨false, true⟩ ⟨false, true⟩ [CEvent.stopReturn]
      (SysTrace.emit (SysStep.stopJoinReturn ⟨false, true⟩ rfl)
        (SysTrace.nil ⟨false, true⟩))).1 [] [] rfl,
   ((c4_stop_join_no_late_callbacks ⟨false, true⟩ ⟨false, true⟩ [CEvent.stopReturn]
      (SysTrace.emit (SysStep.stopJoinReturn ⟨false, true⟩ rfl)
        (SysTrace.nil ⟨false, true⟩))).2 initialEngine).1⟩

/-- C7: within a run the dropped-frame counter is monotonically
non-decreasing along any sequence of capture cycles; an acquisition
timeout increments it by exactly one (hence at least one) and leaves
the loop running; no operation other than connect and run can lower
it; and a fresh run on a connected idle engine resets it to zero. -/
theorem c7_dropped_frames_monotone (s : Engine) :
    (∀ pre post : List CycleInput,
        (runCycles pre s).droppedFramesCount ≤ (runCycles (pre ++ post) s).droppedFramesCount) ∧
      (s.running = true →
        (cycleStep CycleInput.timeout s).droppedFramesCount = s.droppedFramesCount + 1 ∧
          (cycleStep CycleInput.timeout s).running = true) ∧
      (∀ o : Op, (∀ camOk, o ≠ Op.connectOp camOk) → o ≠ Op.runOp →
        s.droppedFramesCount ≤ (applyOp o s).droppedFramesCount) ∧
      (s.connected = true → s.running = false → (run s).1.droppedFramesCount = 0) := by
  refine ⟨?_, ?_, ?_, ?_⟩
  · intro pre post
    have happ : runCycles (pre ++ post) s = runCycles post (runCycles pre s) := by
      unfold runCycles
      exact List.foldl_append _ _ pre post
    rw [happ]
    exact runCycles_dropped_le post (runCycles pre s)
  · intro hrun
    constructor <;> simp [cycleStep, hrun]
  · intro o hnc hnr
    cases o with
    | connectOp camOk => exact absurd rfl (hnc camOk)
    | runOp => exact absurd rfl hnr
    | disconnectOp => exact Nat.le_refl _
    | stopOp => exact Nat.le_refl _
    | startRecordingOp =>
        show s.droppedFramesCount ≤ (startRecording s).1.droppedFramesCount
        unfold startRecording
        split <;> exact Nat.le_refl _
    | stopRecordingOp => exact Nat.le_refl _
    | setExposureOp v =>
        show s.droppedFramesCount ≤ (setExposure v s).droppedFramesCount
        unfold setExposure
        split <;> exact Nat.le_refl _
    | setGainOp v =>
        show s.droppedFramesCount ≤ (setGain v s).droppedFramesCount
        unfold setGain
        split <;> exact Nat.le_refl _
    | setExcitationOp v =>
        show s.droppedFramesCount ≤ (setExcitation v s).droppedFramesCount
        unfold setExcitation
        split <;> exact Nat.le_refl _
    | setSliceIntervalOp n => exact Nat.le_refl _
    | cycleOp inp => exact cycleStep_dropped_le inp s
  · intro hc hnr
    simp [run, hc, hnr]

theorem c7_dropped_frames_monotone_witness :
    initialEngine.droppedFramesCount ≤ (applyOp Op.stopOp initialEngine).droppedFramesCount :=
  (c7_dropped_frames_monotone initialEngine).2.2.1 Op.stopOp
    (by intro camOk h; cases h) (by intro h; cases h)

/-- C8: for values inside the device-defined ranges, setExposure,
setGain and setExcitation followed by the matching getter return
exactly the set value, and the connection state is untouched (the
value is cached regardless of whether the engine is connected). -/
theorem c8_parameter_roundtrip (s : Engine) (e g x : ℚ)
    (he : exposureInRange e) (hg : gainInRange g) (hx : excitationInRange x) :
    (setExposure e s).exposure = e ∧ (setGain g s).gain = g ∧
      (setExcitation x s).excitation = x ∧
      (setExposure e s).connected = s.connected ∧ (setGain g s).connected = s.connected ∧
      (setExcitation x s).connected = s.connected := by
  unfold setExposure setGain setExcitation
  rw [if_pos he, if_pos hg, if_pos hx]
  exact ⟨rfl, rfl, rfl, rfl, rfl, rfl⟩

theorem c8_parameter_roundtrip_witness :
    (setExposure 50 initialEngine).exposure = 50 ∧ (setGain 30 initialEngine).gain = 30 ∧
      (setExcitation 70 initialEngine).excitation = 70 ∧
      (setExposure 50 initialEngine).connected = initialEngine.connected ∧
      (setGain 30 initialEngine).connected = initialEngine.connected ∧
      (setExcitation 70 initialEngine).connected = initialEngine.connected :=
  c8_parameter_roundtrip initialEngine 50 30 70 (by constructor <;> decide)
    (by constructor <;> decide) (by constructor <;> decide)

/-- C9: the clock chosen by the steady_hr_clock alias is always
steady: it is the high-resolution clock exactly when that clock is
steady and the (always steady) steady clock otherwise, so the
timestamping clock is monotonic in every case. -/
theorem c9_steady_hr_clock_is_steady (hrc sc : ClockType) (hsc : sc.is_steady = true) :
    (steady_hr_clock hrc sc).is_steady = true ∧
      (hrc.is_steady = true → steady_hr_clock hrc sc = hrc) ∧
      (hrc.is_steady = false → steady_hr_clock hrc sc = sc) := by
  unfold steady_hr_clock stdConditional
  cases h : hrc.is_steady <;> simp [h, hsc]

theorem c9_steady_hr_clock_is_steady_witness :
    (steady_hr_clock ⟨false⟩ ⟨true⟩).is_steady = true ∧
      ((⟨false⟩ : ClockType).is_steady = true → steady_hr_clock ⟨false⟩ ⟨true⟩ = ⟨false⟩) ∧
      ((⟨false⟩ : ClockType).is_steady = false → steady_hr_clock ⟨false⟩ ⟨true⟩ = ⟨true⟩) :=
  c9_steady_hr_clock_is_steady ⟨false⟩ ⟨true⟩ rfl

/-- C10: the slice interval is a whole number of minutes (the setter
domain is the natural numbers, so negative or fractional values are
not expressible); zero is exactly the no-slicing configuration; and
every expressible non-zero interval is at least one minute, so a
sub-minute positive interval cannot be expressed. -/
theorem c10_slice_interval_whole_minutes (n : ℕ) (s : Engine) :
    (setRecordingSliceInterval n s).sliceIntervalMin = n ∧
      (slicingActive n = false ↔ n = 0) ∧
      (n ≠ 0 → 60000 ≤ sliceIntervalMsOfMinutes n) ∧
      ¬ ∃ m : ℕ, 0 < sliceIntervalMsOfMinutes m ∧ sliceIntervalMsOfMinutes m < 60000 := by
  refine ⟨rfl, by simp [slicingActive], ?_, ?_⟩
  · intro h
    unfold sliceIntervalMsOfMinutes
    omega
  · rintro ⟨m, h1, h2⟩
    unfold sliceIntervalMsOfMinutes at h1 h2
    omega

theorem c10_slice_interval_whole_minutes_witness :
    60000 ≤ sliceIntervalMsOfMinutes 2 :=
  (c10_slice_interval_whole_minutes 2 initialEngine).2.2.1 (by decide)

theorem bgAfter_closed_form (m : BackgroundDiffMethod) (alpha : ℚ) (c bg0 : Frame) :
    ∀ k p, c p - bgAfter m alpha c bg0 k p = (1 - alpha) ^ k * (c p - bg0 p) := by
  intro k
  induction k with
  | zero => intro p; simp [bgAfter]
  | succ k ih =>
      intro p
      have hstep : bgAfter m alpha c bg0 (k + 1) p
          = alpha * c p + (1 - alpha) * bgAfter m alpha c bg0 k p := rfl
      calc c p - bgAfter m alpha c bg0 (k + 1) p
          = (1 - alpha) * (c p - bgAfter m alpha c bg0 k p) := by rw [hstep]; ring
        _ = (1 - alpha) * ((1 - alpha) ^ k * (c p - bg0 p)) := by rw [ih p]
        _ = (1 - alpha) ^ (k + 1) * (c p - bg0 p) := by ring

theorem displayAfter_closed_form (alpha : ℚ) (c bg0 : Frame) (k : ℕ) (p : ℕ) :
    displayAfter BackgroundDiffMethod.Subtraction alpha c bg0 k p
      = clampPix ((1 - alpha) ^ (k + 1) * (c p - bg0 p)) := by
  have h : displayAfter BackgroundDiffMethod.Subtraction alpha c bg0 k p
      = clampPix (c p - bgAfter BackgroundDiffMethod.Subtraction alpha c bg0 (k + 1) p) := rfl
  rw [h, bgAfter_closed_form]

theorem clampPix_lt {x eps : ℚ} (heps : 0 < eps) (hx : x < eps) : clampPix x < eps := by
  unfold clampPix
  exact lt_of_le_of_lt (min_le_right _ _) (max_lt heps hx)

/-- C2: the timestamps of a run are non-decreasing whenever the
underlying monotonic instants are; in unix mode every frame's
timestamp equals the wall-clock reference taken at the first acquired
frame plus the elapsed monotonic delta; and the output depends on the
wall clock only through that single first-frame reading, never a
fresh wall-clock read. -/
theorem c2_timestamp_calibration (u : Bool) (wall : ℤ → ℤ) (ms : List ℤ) :
    (List.Sorted (· ≤ ·) ms → List.Sorted (· ≤ ·) (runTimestamps u wall ms)) ∧
      (∀ m0 rest, ms = m0 :: rest →
        runTimestamps true wall ms = ms.map (fun m => wall m0 + (m - m0))) ∧
      (∀ wall2 : ℤ → ℤ, (∀ m0 rest, ms = m0 :: rest → wall m0 = wall2 m0) →
        runTimestamps u wall ms = runTimestamps u wall2 ms) := by
  refine ⟨?_, ?_, ?_⟩
  · intro hs
    cases ms with
    | nil => simp [runTimestamps]
    | cons m0 rest =>
        unfold runTimestamps
        refine List.Pairwise.map _ ?_ hs
        intro a b hab
        unfold calibTimestamp
        split
        · exact add_le_add_left (sub_le_sub_right hab m0) _
        · exact sub_le_sub_right hab m0
  · intro m0 rest heq
    subst heq
    unfold runTimestamps
    simp [calibTimestamp]
  · intro wall2 hw
    cases ms with
    | nil => rfl
    | cons m0 rest =>
        show (m0 :: rest).map (calibTimestamp u (wall m0) m0)
            = (m0 :: rest).map (calibTimestamp u (wall2 m0) m0)
        rw [hw m0 rest rfl]

theorem c2_timestamp_calibration_witness :
    List.Sorted (· ≤ ·) (runTimestamps true (fun _ => 1000) [5, 7]) ∧
      runTimestamps true (fun _ => 1000) [5, 7]
        = [5, 7].map (fun m => 1000 + (m - 5)) :=
  ⟨(c2_timestamp_calibration true (fun _ => 1000) [5, 7]).1 (by decide),
   (c2_timestamp_calibration true (fun _ => 1000) [5, 7]).2.1 5 [7] rfl⟩

/-- C5: on every cycle the background model becomes
alpha * frame + (1 - alpha) * backgroundModel regardless of the
selected diff method; with Subtraction and a constant input frame the
display output equals the clamp of the geometrically shrinking
difference, converges to zero, and is exactly zero after one cycle
when alpha = 1. -/
theorem c5_background_accumulation (m : BackgroundDiffMethod) (alpha : ℚ) (c bg0 : Frame)
    (h0 : 0 < alpha) (h1 : alpha ≤ 1) :
    (∀ bg : Frame, ∀ p, (captureCycle m alpha c bg).2 p = alpha * c p + (1 - alpha) * bg p) ∧
      (∀ k p, c p - bgAfter m alpha c bg0 k p = (1 - alpha) ^ k * (c p - bg0 p)) ∧
      (∀ k p, displayAfter BackgroundDiffMethod.Subtraction alpha c bg0 k p
        = clampPix ((1 - alpha) ^ (k + 1) * (c p - bg0 p))) ∧
      (∀ p eps, 0 < eps → ∃ K, ∀ k, K ≤ k →
        displayAfter BackgroundDiffMethod.Subtraction alpha c bg0 k p < eps) ∧
      (alpha = 1 → ∀ p, displayAfter BackgroundDiffMethod.Subtraction alpha c bg0 0 p = 0) := by
  refine ⟨fun bg p => rfl, bgAfter_closed_form m alpha c bg0,
    fun k p => displayAfter_closed_form alpha c bg0 k p, ?_, ?_⟩
  · intro p eps heps
    have hr0 : (0 : ℚ) ≤ 1 - alpha := by linarith
    have hr1 : 1 - alpha < 1 := by linarith
    by_cases hd : c p - bg0 p ≤ 0
    · refine ⟨0, fun k _ => ?_⟩
      rw [displayAfter_closed_form]
      have hx : (1 - alpha) ^ (k + 1) * (c p - bg0 p) ≤ 0 :=
        mul_nonpos_iff.mpr (Or.inl ⟨pow_nonneg hr0 _, hd⟩)
      have hz : clampPix ((1 - alpha) ^ (k + 1) * (c p - bg0 p)) = 0 := by
        unfold clampPix
        rw [max_eq_left hx, min_eq_right]
        norm_num
      rw [hz]
      exact heps
    · push_neg at hd
      obtain ⟨N, hN⟩ := exists_pow_lt_of_lt_one (div_pos heps hd) hr1
      refine ⟨N, fun k hk => ?_⟩
      rw [displayAfter_closed_form]
      have hpow : (1 - alpha) ^ (k + 1) ≤ (1 - alpha) ^ N :=
        pow_le_pow_of_le_one hr0 (by linarith) (Nat.le_succ_of_le hk)
      have hlt : (1 - alpha) ^ (k + 1) * (c p - bg0 p) < eps := by
        have h2 : (1 - alpha) ^ (k + 1) * (c p - bg0 p)
            ≤ (1 - alpha) ^ N * (c p - bg0 p) :=
          mul_le_mul_of_nonneg_right hpow (le_of_lt hd)
        have h3 : (1 - alpha) ^ N * (c p - bg0 p) < eps := (lt_div_iff₀ hd).mp hN
        exact lt_of_le_of_lt h2 h3
      exact clampPix_lt heps hlt
  · intro hA p
    subst hA
    rw [displayAfter_closed_form]
    norm_num [clampPix]

theorem c5_background_accumulation_witness :
    displayAfter BackgroundDiffMethod.Subtraction 1 (fun _ => 10) (fun _ => 3) 0 0 = 0 :=
  ((c5_background_accumulation BackgroundDiffMethod.Subtraction 1 (fun _ => 10) (fun _ => 3)
      (by decide) (by decide)).2.2.2.2 rfl) 0

/-- C6: feeding a recording started with base filename and positive
slice interval T: at any prefix of the run at most one segment is
open; if some frame lies beyond twice the slice interval at least two
segments are produced; segment filenames are exactly the deterministic
base-plus-index names in increasing index order; no frame is lost
(the segments hold exactly the fed frames in order); and
stopRecording, stop and disconnect close every open segment. -/
theorem c6_recorder_slicing (base : String) (T t0 : ℤ) (ts : List ℤ) (hT : 0 < T) :
    (∀ pre post : List ℤ, ts = pre ++ post →
        openSegmentCount (feedFrames (rStartRecording base T t0) pre) ≤ 1) ∧
      ((∃ t ∈ ts, t0 + 2 * T < t) →
        2 ≤ (feedFrames (rStartRecording base T t0) ts).segments.length) ∧
      ((feedFrames (rStartRecording base T t0) ts).segments.map Segment.filename
        = (List.range (feedFrames (rStartRecording base T t0) ts).nextIndex).map
            (sliceFilename base)) ∧
      allFrames (feedFrames (rStartRecording base T t0) ts) = ts ∧
      (∀ (e : Engine) (r : Recorder),
        openSegmentCount (rStopRecording r) = 0 ∧
          openSegmentCount (stopWithRecorder e r).2 = 0 ∧
          openSegmentCount (disconnectWithRecorder e r).2 = 0) := by
  have hinv : RecInv base (feedFrames (rStartRecording base T t0) ts) :=
    recInv_feedFrames ts (recInv_start base T t0)
  refine ⟨?_, ?_, hinv.2.2.2.1, ?_, ?_⟩
  · intro pre post _
    exact openSegmentCount_le_one (recInv_feedFrames pre (recInv_start base T t0))
  · intro hex
    have hB : (rStartRecording base T t0).nextBoundary = some (t0 + T) := by
      simp [rStartRecording, hT]
    have h2 : 2 ≤ (feedFrames (rStartRecording base T t0) ts).nextIndex := by
      apply feedFrames_slices ts (rStartRecording base T t0) rfl hB (Nat.le_refl _)
      obtain ⟨t, ht, htt⟩ := hex
      exact ⟨t, ht, by linarith⟩
    rw [segments_length_eq_nextIndex hinv]
    exact h2
  · rw [allFrames_feedFrames ts (recInv_start base T t0)]
    simp [rStartRecording, allFrames]
  · intro e r
    exact ⟨(rStopRecording_closes r).1, (rStopRecording_closes r).1,
      (rStopRecording_closes r).1⟩

theorem c6_recorder_slicing_witness :
    2 ≤ (feedFrames (rStartRecording "a" 10 0) [0, 5, 25]).segments.length ∧
      allFrames (feedFrames (rStartRecording "a" 10 0) [0, 5, 25]) = [0, 5, 25] :=
  ⟨(c6_recorder_slicing "a" 10 0 [0, 5, 25] (by decide)).2.1 ⟨25, by decide, by decide⟩,
   (c6_recorder_slicing "a" 10 0 [0, 5, 25] (by decide)).2.2.2.1⟩

end MScope
